import Mathlib

/-!
Verification development for the pdbtbx structural-biology data model
(Structure → Model → Chain → Residue → Conformer → Atom).

The files `pdb.rs`, `residue.rs`, `conformer.rs` are translated directly
into Lean definitions below.  The parts of the crate those files depend on
but whose sources are not available (`atom.rs`, `chain.rs`, `model.rs`, the
identifier-validation helpers and the transformation value) are modelled
from the design document; each such definition carries a doc comment
starting with "Modelled from the spec:".

Rust in-place mutation is embedded as explicit state passing: a `&mut self`
method returning `T` becomes a Lean function returning the updated value
(paired with `T` when the method also returns a flag or result).  A method
that can panic is embedded returning `Option`, with `none` for the panic.
-/

namespace Pdbtbx

/-- Modelled from the spec: the permitted identifier alphabet of §4.1, a
short alphanumeric-plus-limited-punctuation character set (the validation
module is not under src/). -/
def valid_identifier_char (c : Char) : Bool :=
  c.isAlphanum || c == ' ' || c == '_' || c == '-'

/-- Modelled from the spec: `valid_identifier(s)` of §4.1 holds iff every
character of `s` is drawn from the permitted identifier alphabet. -/
def valid_identifier (s : String) : Bool :=
  s.data.all valid_identifier_char

/-- Modelled from the spec: the looser free-text alphabet of §4.1 used for
comments; a superset of the identifier alphabet. -/
def valid_text_char (c : Char) : Bool :=
  valid_identifier_char c || c == ',' || c == '.' || c == ':' || c == ';' ||
    c == '(' || c == ')'

/-- Modelled from the spec: `valid_text(s)` of §4.1 holds iff every
character of `s` is drawn from the free-text alphabet. -/
def valid_text (s : String) : Bool :=
  s.data.all valid_text_char

/-- Modelled from the spec: `prepare_identifier(s)` of §4.1 succeeds iff
every character of `s` is in the identifier alphabet and returns the
canonical form (case and padding normalized). -/
def prepare_identifier (s : String) : Option String :=
  if valid_identifier s then some s.trim.toUpper else none

/-- Modelled from the spec: the Atom leaf entity (one physical atom record;
`atom.rs` is not under src/).  Identity is the serial number; the position
is the coordinate the transformation value acts on. -/
structure Atom where
  serial_number : Nat
  name : String
  pos : Int × Int × Int
deriving Repr, DecidableEq

/-- Modelled from the spec: the external opaque transformation value of §2,
exposing one operation, apply-to-point. -/
structure TransformationMatrix where
  applyPoint : Int × Int × Int → Int × Int × Int

/-- Modelled from the spec: applying a transformation to an Atom applies it
to the atom's position, in place. -/
def Atom.apply_transformation (a : Atom) (t : TransformationMatrix) : Atom :=
  { a with pos := t.applyPoint a.pos }

/-- The `Conformer` struct of `conformer.rs`. -/
structure Conformer where
  name : String
  alternative_location : Option String
  atoms : List Atom
  modification : Option (String × String)
deriving Repr, DecidableEq

/-- `Conformer::new` of `conformer.rs`: fails iff `prepare_identifier`
rejects `name`; an invalid `alt_loc` silently degrades to `none`. -/
def Conformer.new (name : String) (alt_loc : Option String) (atom : Option Atom) :
    Option Conformer :=
  match prepare_identifier name with
  | some n =>
    let res : Conformer :=
      { name := n, alternative_location := none, atoms := [], modification := none }
    let res := match alt_loc with
      | some al => { res with alternative_location := prepare_identifier al }
      | none => res
    let res := match atom with
      | some a => { res with atoms := res.atoms ++ [a] }
      | none => res
    some res
  | none => none

/-- `Conformer::set_name`: on success replaces the name and returns true,
on validation failure leaves the conformer unchanged and returns false. -/
def Conformer.set_name (c : Conformer) (new_name : String) : Conformer × Bool :=
  match prepare_identifier new_name with
  | some n => ({ c with name := n }, true)
  | none => (c, false)

/-- `Conformer::set_alternative_location`: same success/failure shape as
`set_name`. -/
def Conformer.set_alternative_location (c : Conformer) (new_loc : String) :
    Conformer × Bool :=
  match prepare_identifier new_loc with
  | some l => ({ c with alternative_location := some l }, true)
  | none => (c, false)

/-- `Conformer::id`: the (name, alternative location) identity tuple. -/
def Conformer.id (c : Conformer) : String × Option String :=
  (c.name, c.alternative_location)

/-- `Conformer::set_modification`: errs with a descriptive message if the
standard name is not a valid identifier or the comment is not valid text;
otherwise replaces any prior modification. -/
def Conformer.set_modification (c : Conformer) (new_modification : String × String) :
    Conformer × Except String Unit :=
  if valid_identifier new_modification.1 = false then
    (c, Except.error ("New modification has invalid characters for standard conformer name, standard name " ++ new_modification.1))
  else if valid_text new_modification.2 = false then
    (c, Except.error ("New modification has invalid characters the comment, comment " ++ new_modification.2))
  else
    ({ c with modification := some new_modification }, Except.ok ())

/-- `Conformer::atom_count`. -/
def Conformer.atom_count (c : Conformer) : Nat :=
  c.atoms.length

/-- `Conformer::add_atom`: appends. -/
def Conformer.add_atom (c : Conformer) (new_atom : Atom) : Conformer :=
  { c with atoms := c.atoms ++ [new_atom] }

/-- `Conformer::remove_atoms_by`: in-place retain of the atoms on which the
predicate is false. -/
def Conformer.remove_atoms_by (c : Conformer) (predicate : Atom → Bool) : Conformer :=
  { c with atoms := c.atoms.filter (fun atom => !predicate atom) }

/-- `Conformer::remove_atom`: `Vec::remove` panics out of bounds, embedded
as `none`. -/
def Conformer.remove_atom (c : Conformer) (index : Nat) : Option Conformer :=
  if index < c.atoms.length then some { c with atoms := c.atoms.eraseIdx index }
  else none

/-- `Iterator::position`: index of the first element satisfying the
predicate. -/
def listPosition {α : Type} (p : α → Bool) : List α → Option Nat
  | [] => none
  | x :: xs => if p x then some 0 else (listPosition p xs).map (· + 1)

/-- `Conformer::remove_atom_by_serial_number`: first-match removal with a
boolean found/not-found result. -/
def Conformer.remove_atom_by_serial_number (c : Conformer) (sn : Nat) :
    Option (Conformer × Bool) :=
  match listPosition (fun a => a.serial_number == sn) c.atoms with
  | some i => (c.remove_atom i).map (fun c2 => (c2, true))
  | none => some (c, false)

/-- `Conformer::remove_atom_by_name`: first-match removal with a boolean
found/not-found result. -/
def Conformer.remove_atom_by_name (c : Conformer) (name : String) :
    Option (Conformer × Bool) :=
  match listPosition (fun a => a.name == name) c.atoms with
  | some i => (c.remove_atom i).map (fun c2 => (c2, true))
  | none => some (c, false)

/-- `Conformer::apply_transformation`: applies the transformation to every
owned atom's position, in place. -/
def Conformer.apply_transformation (c : Conformer) (t : TransformationMatrix) :
    Conformer :=
  { c with atoms := c.atoms.map (fun a => a.apply_transformation t) }

/-- `Conformer::join`: moves all atoms of `other` to the end of this
conformer's atom list; this conformer's metadata stays the same. -/
def Conformer.join (c : Conformer) (other : Conformer) : Conformer :=
  { c with atoms := c.atoms ++ other.atoms }

/-- `Conformer::extend`. -/
def Conformer.extend (c : Conformer) (iter : List Atom) : Conformer :=
  { c with atoms := c.atoms ++ iter }

/-- The `Residue` struct of `residue.rs`. -/
structure Residue where
  serial_number : Nat
  insertion_code : Option String
  conformers : List Conformer
deriving Repr, DecidableEq

/-- `Residue::set_insertion_code`: on success replaces the code and returns
true, on validation failure leaves the residue unchanged and returns
false. -/
def Residue.set_insertion_code (r : Residue) (new_code : String) : Residue × Bool :=
  match prepare_identifier new_code with
  | some c => ({ r with insertion_code := some c }, true)
  | none => (r, false)

/-- `Residue::new` of `residue.rs`: fails only if the insertion code is
given and invalid (the serial number has no validation). -/
def Residue.new (number : Nat) (insertion_code : Option String)
    (conformer : Option Conformer) : Option Residue :=
  let res : Residue :=
    { serial_number := number, insertion_code := none, conformers := [] }
  match insertion_code with
  | some ic =>
    if valid_identifier ic = false then none
    else
      let res := (res.set_insertion_code ic).1
      match conformer with
      | some c => some { res with conformers := res.conformers ++ [c] }
      | none => some res
  | none =>
    match conformer with
    | some c => some { res with conformers := res.conformers ++ [c] }
    | none => some res

/-- `Residue::id`: the (serial number, insertion code) identity tuple. -/
def Residue.id (r : Residue) : Nat × Option String :=
  (r.serial_number, r.insertion_code)

/-- `Residue::name`: the common conformer name, derived on demand; `none`
for zero conformers and whenever two conformers disagree. -/
def Residue.name (r : Residue) : Option String :=
  match r.conformers with
  | [] => none
  | [c] => some c.name
  | c :: rest =>
    if rest.all (fun conf => conf.name == c.name) then some c.name else none

/-- `Residue::conformer_count`. -/
def Residue.conformer_count (r : Residue) : Nat :=
  r.conformers.length

/-- `Residue::atom_count`: the fold over the conformers' atom counts,
recomputed each call. -/
def Residue.atom_count (r : Residue) : Nat :=
  r.conformers.foldl (fun sum c => c.atom_count + sum) 0

/-- `Residue::atoms`: the flattened conformer-then-atom iteration order. -/
def Residue.atoms (r : Residue) : List Atom :=
  r.conformers.flatMap Conformer.atoms

/-- `Residue::add_conformer`: appends. -/
def Residue.add_conformer (r : Residue) (new_conformer : Conformer) : Residue :=
  { r with conformers := r.conformers ++ [new_conformer] }

/-- `Residue::remove_empty`: drops every conformer whose atom count is
zero (retain keeps those with a positive count). -/
def Residue.remove_empty (r : Residue) : Residue :=
  { r with conformers := r.conformers.filter (fun c => decide (0 < c.atom_count)) }

/-- `Residue::remove_conformers_by`: in-place retain of the conformers on
which the predicate is false. -/
def Residue.remove_conformers_by (r : Residue) (predicate : Conformer → Bool) :
    Residue :=
  { r with conformers := r.conformers.filter (fun c => !predicate c) }

/-- `Residue::remove_atoms_by`: delegates into every conformer. -/
def Residue.remove_atoms_by (r : Residue) (predicate : Atom → Bool) : Residue :=
  { r with conformers := r.conformers.map (fun c => c.remove_atoms_by predicate) }

/-- `Residue::remove_conformer`: `Vec::remove` panics out of bounds,
embedded as `none`. -/
def Residue.remove_conformer (r : Residue) (index : Nat) : Option Residue :=
  if index < r.conformers.length then
    some { r with conformers := r.conformers.eraseIdx index }
  else none

/-- `Residue::remove_conformer_by_id`: first-match removal with a boolean
found/not-found result. -/
def Residue.remove_conformer_by_id (r : Residue) (id : String × Option String) :
    Option (Residue × Bool) :=
  match listPosition (fun a => a.id == id) r.conformers with
  | some i => (r.remove_conformer i).map (fun r2 => (r2, true))
  | none => some (r, false)

/-- `Residue::apply_transformation`: delegates into every conformer. -/
def Residue.apply_transformation (r : Residue) (t : TransformationMatrix) : Residue :=
  { r with conformers := r.conformers.map (fun c => c.apply_transformation t) }

/-- `Residue::join`: moves all conformers of `other` to the end of this
residue's conformer list; this residue's metadata stays the same. -/
def Residue.join (r : Residue) (other : Residue) : Residue :=
  { r with conformers := r.conformers ++ other.conformers }

/-- `Residue::extend`. -/
def Residue.extend (r : Residue) (iter : List Conformer) : Residue :=
  { r with conformers := r.conformers ++ iter }

/-- Modelled from the spec: the Chain aggregate (`chain.rs` is not under
src/): an ordered collection of Residues plus, per §3, a non-owning
back-reference to its parent Model, represented as an optional abstract
address (`none` embeds a null or never-set raw pointer). -/
structure Chain where
  name : String
  model_ptr : Option Nat
  residues : List Residue
deriving Repr, DecidableEq

/-- Modelled from the spec: setting the chain's back-reference to the
Model at the given address (the fixup pass of §4.5 is the only writer). -/
def Chain.set_model_pointer (c : Chain) (model_addr : Nat) : Chain :=
  { c with model_ptr := some model_addr }

/-- Modelled from the spec: the chain's flattened atom iteration order. -/
def Chain.atoms (c : Chain) : List Atom :=
  c.residues.flatMap Residue.atoms

/-- Modelled from the spec: Chain `apply_transformation` delegates into
every residue. -/
def Chain.apply_transformation (c : Chain) (t : TransformationMatrix) : Chain :=
  { c with residues := c.residues.map (fun r => r.apply_transformation t) }

/-- Modelled from the spec: the Model aggregate (`model.rs` is not under
src/): a serial number, chains partitioned into standard and hetero
buckets (§2), and the back-reference to the parent Structure, represented
as an optional abstract address (`none` embeds a null or never-set raw
pointer). -/
structure Model where
  serial_number : Nat
  pdb_ptr : Option Nat
  chains : List Chain
  hetero_chains : List Chain
deriving Repr, DecidableEq

/-- Modelled from the spec: `Model::set_pdb_pointer`, named at
`pdb.rs:131`, writes the model's back-reference to the Structure at the
given address. -/
def Model.set_pdb_pointer (m : Model) (pdb_addr : Nat) : Model :=
  { m with pdb_ptr := some pdb_addr }

/-- Modelled from the spec: `Model::fix_pointers_of_children`, named at
`pdb.rs:26` and `pdb.rs:132`, reassigns every descendant's stored
back-reference (§4.5): each chain's Model back-reference is set to this
model's current address (`self_addr`, the implicit `&mut self` address in
Rust).  Residues and conformers of this crate store no back-references, so
the recursion below the chains writes nothing. -/
def Model.fix_pointers_of_children (m : Model) (self_addr : Nat) : Model :=
  { m with
    chains := m.chains.map (fun c => c.set_model_pointer self_addr),
    hetero_chains := m.hetero_chains.map (fun c => c.set_model_pointer self_addr) }

/-- Modelled from the spec: the "all" view of a model's atoms, the
disjoint union of the standard and hetero views. -/
def Model.all_atoms (m : Model) : List Atom :=
  (m.chains ++ m.hetero_chains).flatMap Chain.atoms

/-- Modelled from the spec: Model `apply_transformation` delegates into
every chain of both buckets. -/
def Model.apply_transformation (m : Model) (t : TransformationMatrix) : Model :=
  { m with
    chains := m.chains.map (fun c => c.apply_transformation t),
    hetero_chains := m.hetero_chains.map (fun c => c.apply_transformation t) }

/-- Modelled from the spec: the scale metadata held by the Structure,
opaque crystallographic data whose internals the model code never
inspects. -/
structure Scale where
  factors : List Int
deriving Repr, DecidableEq

/-- Modelled from the spec: the unit-cell metadata, opaque to the model
code. -/
structure UnitCell where
  size : Int × Int × Int
deriving Repr, DecidableEq

/-- Modelled from the spec: the symmetry metadata, opaque to the model
code. -/
structure Symmetry where
  space_group : String
deriving Repr, DecidableEq

/-- The `PDB` struct of `pdb.rs`: remarks, optional scale, unit cell and
symmetry metadata, and the ordered list of models. -/
structure PDB where
  remarks : List (Nat × String)
  scale : Option Scale
  unit_cell : Option UnitCell
  symmetry : Option Symmetry
  models : List Model
deriving Repr, DecidableEq

/-- `PDB::new`. -/
def PDB.new : PDB :=
  { remarks := [], scale := none, unit_cell := none, symmetry := none, models := [] }

/-- `PDB::add_model` of `pdb.rs:24`: pushes the model and then calls
`fix_pointers_of_children` on the pushed model (the last element).
`new_model_addr` is the address the pushed model lands at, implicit in the
Rust `last_mut()` reference.  Note that `add_model` does not call
`set_pdb_pointer` on the pushed model. -/
def PDB.add_model (p : PDB) (new_model : Model) (new_model_addr : Nat) : PDB :=
  { p with models := p.models ++ [new_model.fix_pointers_of_children new_model_addr] }

/-- `PDB::all_atoms` of `pdb.rs:113`: the lazily flattened model-by-model
all-atoms traversal. -/
def PDB.all_atoms (p : PDB) : List Atom :=
  p.models.flatMap Model.all_atoms

/-- Modelled from the spec: Structure-level `apply_transformation`
(§8), applying the transformation to every owned atom's position by
delegating into every model. -/
def PDB.apply_transformation (p : PDB) (t : TransformationMatrix) : PDB :=
  { p with models := p.models.map (fun m => m.apply_transformation t) }

/-- The panic message of `PDB::scale` at `pdb.rs:124`. -/
def scalePanicMsg : String :=
  "Expected a Scale but it was not in place (it was None)."

/-- `PDB::scale` of `pdb.rs:121` (named `getScale` here because the field
`scale` already takes that name): returns the scale metadata, and panics
(embedded as `Except.error`) iff the field is `None`. -/
def PDB.getScale (p : PDB) : Except String Scale :=
  match p.scale with
  | some s => Except.ok s
  | none => Except.error scalePanicMsg

/-- `PDB::fix_pointers_of_children` of `pdb.rs:128`: writes every model's
back-reference to this Structure (`self_addr`, the implicit `&mut self`
address) and recurses into each model.  `model_addr` gives the address of
the model stored at each index, implicit in Rust's iteration by mutable
reference. -/
def PDB.fix_pointers_of_children (p : PDB) (self_addr : Nat) (model_addr : Nat → Nat) :
    PDB :=
  { p with
    models := p.models.mapIdx (fun i m =>
      (m.set_pdb_pointer self_addr).fix_pointers_of_children (model_addr i)) }

/-- `PDB::remove_model`: `Vec::remove` panics out of bounds, embedded as
`none`. -/
def PDB.remove_model (p : PDB) (index : Nat) : Option PDB :=
  if index < p.models.length then some { p with models := p.models.eraseIdx index }
  else none

/-- `PDB::remove_model_serial_number`: first-match removal with a boolean
found/not-found result. -/
def PDB.remove_model_serial_number (p : PDB) (sn : Nat) : Option (PDB × Bool) :=
  match listPosition (fun a => a.serial_number == sn) p.models with
  | some i => (p.remove_model i).map (fun p2 => (p2, true))
  | none => some (p, false)

/-! Concrete entities used by the witness and counterexample theorems. -/

/-- An empty chain named "A" with a never-set back-reference. -/
def chain0 : Chain :=
  { name := "A", model_ptr := none, residues := [] }

/-- A freshly built model holding one chain; its back-reference to a
Structure was never set. -/
def model0 : Model :=
  { serial_number := 1, pdb_ptr := none, chains := [chain0], hetero_chains := [] }

/-- Crystallographic scale metadata used as a concrete value. -/
def scale0 : Scale :=
  ⟨[1, 0, 0]⟩

/-- A PDB whose scale field is set. -/
def pdbWithScale : PDB :=
  { PDB.new with scale := some scale0 }

/-- A PDB with one remark and one model. -/
def pdb1 : PDB :=
  { remarks := [(1, "TEST REMARK")], scale := none, unit_cell := none,
    symmetry := none, models := [model0] }

/-- `pdb1` after its only model is removed. -/
def pdb1r : PDB :=
  { pdb1 with models := [] }

/-- A conformer with two atoms, serial numbers 1 and 2. -/
def confTwoAtoms : Conformer :=
  { name := "ALA", alternative_location := none,
    atoms :=
      [{ serial_number := 1, name := "C", pos := (0, 0, 0) },
       { serial_number := 2, name := "H", pos := (1, 0, 0) }],
    modification := none }

/-! Helper lemmas shared between the claims. -/

/-- Applying a transformation to a chain transforms its flattened atom list
pointwise. -/
theorem chain_apply_atoms (c : Chain) (t : TransformationMatrix) :
    (c.apply_transformation t).atoms = c.atoms.map (fun a => a.apply_transformation t) := by
  simp [Chain.apply_transformation, Chain.atoms, Residue.apply_transformation,
    Residue.atoms, Conformer.apply_transformation, List.flatMap_map, List.map_flatMap]

/-- Applying a transformation to a model transforms its all-atoms view
pointwise. -/
theorem model_apply_all_atoms (m : Model) (t : TransformationMatrix) :
    (m.apply_transformation t).all_atoms =
      m.all_atoms.map (fun a => a.apply_transformation t) := by
  simp only [Model.apply_transformation, Model.all_atoms, ← List.map_append,
    List.flatMap_map, List.map_flatMap]
  exact List.flatMap_congr (fun c _ => chain_apply_atoms c t)

/-! The claims. -/

/-- C2: `Conformer::new(name, alt_loc, atom)` returns nothing exactly when
`name` fails identifier validation; when `name` is valid it returns a
conformer whose alternative location is the canonicalization of `alt_loc`,
which degrades to `none` when `alt_loc` is invalid, without aborting
construction. -/
theorem c2_conformer_new (name : String) (alt_loc : Option String) (atom : Option Atom) :
    ((Conformer.new name alt_loc atom).isNone = !(valid_identifier name)) ∧
    ((Conformer.new name alt_loc atom).map Conformer.alternative_location =
      (prepare_identifier name).map (fun _ => alt_loc.bind prepare_identifier)) := by
  by_cases hv : valid_identifier name = true
  · cases alt_loc <;> cases atom <;>
      simp [Conformer.new, prepare_identifier, hv, Option.bind]
  · have hv' : valid_identifier name = false := by
      cases h : valid_identifier name
      · rfl
      · exact absurd h hv
    cases alt_loc <;> cases atom <;>
      simp [Conformer.new, prepare_identifier, hv']

/-- C3: `join` at both the Residue and the Conformer level appends the
source's children to the destination's child list in order, leaves the
destination's identity and metadata unchanged, and (the source being
passed by value into a pure function) does not mutate the source. -/
theorem c3_join (A B : Residue) (C D : Conformer) :
    (A.join B).conformers = A.conformers ++ B.conformers ∧
    (A.join B).serial_number = A.serial_number ∧
    (A.join B).insertion_code = A.insertion_code ∧
    (C.join D).atoms = C.atoms ++ D.atoms ∧
    (C.join D).name = C.name ∧
    (C.join D).alternative_location = C.alternative_location ∧
    (C.join D).modification = C.modification :=
  ⟨rfl, rfl, rfl, rfl, rfl, rfl, rfl⟩

/-- C5: removing the atoms by a predicate that holds on every atom of the
residue and then calling `remove_empty` leaves the residue with zero
conformers and zero atoms; and `remove_empty` keeps, in order, exactly the
conformers whose atom count is nonzero. -/
theorem c5_remove_empty (r : Residue) (p : Atom → Bool) :
    ((∀ a ∈ r.atoms, p a = true) →
      ((r.remove_atoms_by p).remove_empty).conformers = [] ∧
      ((r.remove_atoms_by p).remove_empty).atom_count = 0) ∧
    (r.remove_empty).conformers = r.conformers.filter (fun c => c.atom_count != 0) := by
  constructor
  · intro h
    have h1 : ((r.remove_atoms_by p).remove_empty).conformers = [] := by
      simp only [Residue.remove_atoms_by, Residue.remove_empty]
      rw [List.filter_eq_nil_iff]
      intro c hc
      rcases List.mem_map.mp hc with ⟨c0, hc0, rfl⟩
      have hempty : (c0.remove_atoms_by p).atoms = [] := by
        simp only [Conformer.remove_atoms_by]
        rw [List.filter_eq_nil_iff]
        intro a ha
        have hp : p a = true := h a (List.mem_flatMap.mpr ⟨c0, hc0, ha⟩)
        simp [hp]
      simp [Conformer.atom_count, hempty]
    exact ⟨h1, by simp [Residue.atom_count, h1]⟩
  · apply List.filter_congr
    intro c _
    by_cases h : c.atom_count = 0
    · simp [h]
    · simp [Nat.pos_of_ne_zero h, h]

/-- A residue holding the two-atom conformer. -/
def resWithAtoms : Residue :=
  { serial_number := 10, insertion_code := none, conformers := [confTwoAtoms] }

/-- Witness for C5: on a concrete residue, removing the atoms by the
always-true predicate and then the empty conformers leaves nothing. -/
theorem c5_remove_empty_witness :
    ((resWithAtoms.remove_atoms_by (fun _ => true)).remove_empty).conformers = [] ∧
    ((resWithAtoms.remove_atoms_by (fun _ => true)).remove_empty).atom_count = 0 :=
  (c5_remove_empty resWithAtoms (fun _ => true)).1 (fun _ _ => rfl)

/-- C6: `apply_transformation` at the Conformer, Residue and Structure
level transforms the owned atom iteration pointwise: the resulting atom
list is exactly the map of single applications over the original list, so
no atom is skipped and none is transformed twice. -/
theorem c6_apply_transformation (c : Conformer) (r : Residue) (p : PDB)
    (t : TransformationMatrix) :
    (c.apply_transformation t).atoms = c.atoms.map (fun a => a.apply_transformation t) ∧
    (r.apply_transformation t).atoms = r.atoms.map (fun a => a.apply_transformation t) ∧
    (p.apply_transformation t).all_atoms =
      p.all_atoms.map (fun a => a.apply_transformation t) := by
  refine ⟨rfl, ?_, ?_⟩
  · simp [Residue.apply_transformation, Residue.atoms, Conformer.apply_transformation,
      List.flatMap_map, List.map_flatMap]
  · simp only [PDB.apply_transformation, PDB.all_atoms, List.flatMap_map,
      List.map_flatMap]
    exact List.flatMap_congr (fun m _ => model_apply_all_atoms m t)

/-- C7: the `PDB::scale` accessor returns the scale metadata when the
scale field is set and panics (embedded as an error) exactly when the
field is absent; under the precondition that the field is `some`, the
panic branch is unreachable. -/
theorem c7_scale (p : PDB) :
    (∀ s, p.scale = some s → p.getScale = Except.ok s) ∧
    (p.scale = none ↔ p.getScale = Except.error scalePanicMsg) := by
  cases h : p.scale <;> simp [PDB.getScale, h]

/-- Witness for C7: a PDB with the scale present takes the ok branch, and
a fresh PDB without one takes the panic branch. -/
theorem c7_scale_witness :
    pdbWithScale.getScale = Except.ok scale0 ∧
    PDB.new.getScale = Except.error scalePanicMsg :=
  ⟨(c7_scale pdbWithScale).1 scale0 rfl, (c7_scale PDB.new).2.mp rfl⟩

/-- C10: removing a model by index or by serial number modifies only the
model list; the remarks, scale, unit-cell and symmetry fields of the PDB
are untouched. -/
theorem c10_remove_model_frame (p : PDB) (i sn : Nat) :
    (∀ q, p.remove_model i = some q →
      q.remarks = p.remarks ∧ q.scale = p.scale ∧ q.unit_cell = p.unit_cell ∧
        q.symmetry = p.symmetry) ∧
    (∀ x, p.remove_model_serial_number sn = some x →
      x.1.remarks = p.remarks ∧ x.1.scale = p.scale ∧ x.1.unit_cell = p.unit_cell ∧
        x.1.symmetry = p.symmetry) := by
  have hrm : ∀ i q, p.remove_model i = some q →
      q.remarks = p.remarks ∧ q.scale = p.scale ∧ q.unit_cell = p.unit_cell ∧
        q.symmetry = p.symmetry := by
    intro i q hq
    unfold PDB.remove_model at hq
    split at hq
    · cases hq
      exact ⟨rfl, rfl, rfl, rfl⟩
    · cases hq
  refine ⟨hrm i, ?_⟩
  intro x hx
  unfold PDB.remove_model_serial_number at hx
  cases hpos : listPosition (fun a => a.serial_number == sn) p.models with
  | none =>
    rw [hpos] at hx
    cases hx
    exact ⟨rfl, rfl, rfl, rfl⟩
  | some j =>
    rw [hpos] at hx
    have hx2 : Option.map (fun p2 => (p2, true)) (p.remove_model j) = some x := hx
    cases hq : p.remove_model j with
    | none => rw [hq] at hx2; cases hx2
    | some q =>
      rw [hq] at hx2
      cases hx2
      exact hrm j q hq

/-- Witness for C10: removing the only model of a concrete PDB succeeds
and leaves the metadata fields untouched. -/
theorem c10_remove_model_frame_witness :
    pdb1.remove_model 0 = some pdb1r ∧ pdb1r.remarks = pdb1.remarks ∧
    pdb1r.scale = pdb1.scale ∧ pdb1r.unit_cell = pdb1.unit_cell ∧
    pdb1r.symmetry = pdb1.symmetry := by
  have h : pdb1.remove_model 0 = some pdb1r := rfl
  have hf := (c10_remove_model_frame pdb1 0 0).1 pdb1r h
  exact ⟨h, hf.1, hf.2.1, hf.2.2.1, hf.2.2.2⟩

/-- C4: `Residue::name` returns nothing for zero conformers, and for a
residue with at least one conformer returns `some x` exactly when every
conformer's name equals `x` (so any two disagreeing names give `none`). -/
theorem c4_residue_name (r : Residue) :
    (r.conformers = [] → r.name = none) ∧
    (∀ x : String, r.conformers ≠ [] →
      (r.name = some x ↔ ∀ c ∈ r.conformers, c.name = x)) := by
  obtain ⟨sn, ic, confs⟩ := r
  match confs with
  | [] =>
    exact ⟨fun _ => rfl, fun x h => absurd rfl h⟩
  | [c] =>
    refine ⟨fun h => absurd h (List.cons_ne_nil _ _), fun x _ => ?_⟩
    show some c.name = some x ↔ _
    constructor
    · intro h
      injection h with h
      subst h
      intro c2 hc2
      rw [List.mem_singleton.mp hc2]
    · intro h
      rw [h c (List.mem_singleton.mpr rfl)]
  | c :: c2 :: rest =>
    refine ⟨fun h => absurd h (List.cons_ne_nil _ _), fun x _ => ?_⟩
    show (if (c2 :: rest).all (fun conf => conf.name == c.name) then some c.name
      else none) = some x ↔ _
    by_cases hall : (c2 :: rest).all (fun conf => conf.name == c.name) = true
    · rw [if_pos hall]
      rw [List.all_eq_true] at hall
      constructor
      · intro h
        injection h with h
        subst h
        intro c3 hc3
        rcases List.mem_cons.mp hc3 with h3 | h3
        · rw [h3]
        · exact eq_of_beq (hall c3 h3)
      · intro h
        rw [h c (List.mem_cons_self c (c2 :: rest))]
    · rw [if_neg hall]
      constructor
      · intro h
        cases h
      · intro h
        exfalso
        apply hall
        rw [List.all_eq_true]
        intro conf hconf
        have ha := h conf (List.mem_cons_of_mem c hconf)
        have hb := h c (List.mem_cons_self c (c2 :: rest))
        rw [beq_iff_eq, ha, hb]

/-- A residue whose two conformers agree on the name "ALA". -/
def resAA : Residue :=
  { serial_number := 10, insertion_code := none,
    conformers :=
      [{ name := "ALA", alternative_location := some "A", atoms := [],
         modification := none },
       { name := "ALA", alternative_location := some "B", atoms := [],
         modification := none }] }

/-- Witness for C4: on a concrete residue with two agreeing conformers the
derived name is their common name. -/
theorem c4_residue_name_witness : resAA.name = some "ALA" :=
  ((c4_residue_name resAA).2 "ALA" (by decide)).mpr (by decide)

/-- Counterexample to C1: attach the freshly built `model0` (whose
Structure back-reference was never set) to a fresh PDB with `add_model`
(the model landing at address 7, the PDB living at address 5).  After the
call the attached model's own back-reference is still unset — it is
`none`, so it does not resolve to the PDB at address 5 (nor at any other
address): `add_model` never calls `set_pdb_pointer` on the pushed model,
refuting that every descendant of the new model, the model itself
included, ends up with a back-reference resolving to this PDB. -/
theorem c1_counterexample :
    ((PDB.new.add_model model0 7).models.map Model.pdb_ptr = [none]) ∧
    ((PDB.new.add_model model0 7).models.all (fun m => m.pdb_ptr == some 5)) = false := by
  constructor <;> rfl

/-- C1 (amended): `add_model` appends the model and, before returning,
runs the fixup pass over the newly attached model's children, so every
chain of the attached model (standard and hetero) holds a back-reference
to the model's current address; the model's own back-reference to the PDB
is left exactly as it was — it is set only by `PDB::fix_pointers_of_children`,
which `add_model` does not invoke on the PDB itself. -/
theorem c1_add_model (p : PDB) (m : Model) (addr : Nat) :
    (p.add_model m addr).models = p.models ++ [m.fix_pointers_of_children addr] ∧
    ((m.fix_pointers_of_children addr).chains.all
      (fun c => c.model_ptr == some addr)) = true ∧
    ((m.fix_pointers_of_children addr).hetero_chains.all
      (fun c => c.model_ptr == some addr)) = true ∧
    (m.fix_pointers_of_children addr).pdb_ptr = m.pdb_ptr ∧
    (m.fix_pointers_of_children addr).serial_number = m.serial_number := by
  refine ⟨rfl, ?_, ?_, rfl, rfl⟩ <;>
  · rw [List.all_eq_true]
    intro c hc
    rcases List.mem_map.mp hc with ⟨c0, _, rfl⟩
    simp [Chain.set_model_pointer]

/-- Characterization of `Iterator::position` followed by `Vec::remove`:
when no element matches the position is `none` and nothing would be
removed; when the position is `some i`, the list splits as a prefix of
non-matching elements, the first matching element at index `i`, and a
suffix, and erasing index `i` drops exactly that element. -/
theorem listPosition_spec {α : Type} (p : α → Bool) (l : List α) :
    (listPosition p l = none → ∀ x ∈ l, p x = false) ∧
    (∀ i, listPosition p l = some i →
      i < l.length ∧ ∃ l₁ a l₂, l = l₁ ++ a :: l₂ ∧ l₁.length = i ∧ p a = true ∧
        (∀ b ∈ l₁, p b = false) ∧ l.eraseIdx i = l₁ ++ l₂) := by
  induction l with
  | nil => exact ⟨fun _ x hx => absurd hx (List.not_mem_nil x), fun i hi => by cases hi⟩
  | cons x xs ih =>
    by_cases hx : p x = true
    · refine ⟨fun h => ?_, fun i hi => ?_⟩
      · rw [listPosition, if_pos hx] at h
        cases h
      · rw [listPosition, if_pos hx] at hi
        injection hi with hi
        subst hi
        refine ⟨Nat.succ_pos _, [], x, xs, rfl, rfl, hx, ?_, rfl⟩
        intro b hb
        cases hb
    · have hx' : p x = false := by
        cases h : p x
        · rfl
        · exact absurd h hx
      refine ⟨fun h => ?_, fun i hi => ?_⟩
      · rw [listPosition, if_neg hx] at h
        intro y hy
        rcases List.mem_cons.mp hy with h2 | h2
        · rw [h2]; exact hx'
        · cases hxs : listPosition p xs with
          | none => exact ih.1 hxs y h2
          | some j => rw [hxs] at h; cases h
      · rw [listPosition, if_neg hx] at hi
        cases hxs : listPosition p xs with
        | none => rw [hxs] at hi; cases hi
        | some j =>
          rw [hxs] at hi
          injection hi with hi
          subst hi
          obtain ⟨hlt, l₁, a, l₂, hsplit, hlen, hpa, hpre, herase⟩ := ih.2 j hxs
          refine ⟨Nat.succ_lt_succ hlt, x :: l₁, a, l₂,
            by rw [hsplit, List.cons_append], by simp [hlen], hpa, ?_, ?_⟩
          · intro b hb
            rcases List.mem_cons.mp hb with h2 | h2
            · rw [h2]; exact hx'
            · exact hpre b h2
          · rw [List.eraseIdx_cons_succ, herase, List.cons_append]

/-- A second definition following the spec's words (§7 and the C8 claim),
to be compared with the source-translated helpers: a first-match removal
either finds no match, returns found = false and leaves the child list
unchanged, or splits the old list around the first matching child, returns
found = true and removes exactly that child. -/
def FirstMatchRemovalSpec {α : Type} (p : α → Bool) (old new : List α)
    (found : Bool) : Prop :=
  if found then
    ∃ l₁ a l₂, old = l₁ ++ a :: l₂ ∧ p a = true ∧ (∀ b ∈ l₁, p b = false) ∧
      new = l₁ ++ l₂
  else
    new = old ∧ ∀ a ∈ old, p a = false

/-- The common shape of the four identity-based removal helpers: from a
first-match position and a bounds-checked erase, the helper never hits the
out-of-bounds panic and satisfies the removal specification. -/
theorem firstMatchCore {α : Type} (p : α → Bool) (l : List α) :
    (listPosition p l = none → FirstMatchRemovalSpec p l l false) ∧
    (∀ i, listPosition p l = some i →
      i < l.length ∧ FirstMatchRemovalSpec p l (l.eraseIdx i) true) := by
  constructor
  · intro h
    exact ⟨rfl, (listPosition_spec p l).1 h⟩
  · intro i hi
    obtain ⟨hlt, l₁, a, l₂, hsplit, _, hpa, hpre, herase⟩ :=
      (listPosition_spec p l).2 i hi
    exact ⟨hlt, l₁, a, l₂, hsplit, hpa, hpre, herase⟩

/-- C8: the four identity-based removal helpers never panic (they always
return a value): on no match they return false and leave the child list
unchanged, and on a match they remove exactly the first matching child and
return true.  The conformer helper moreover leaves the conformer's
metadata untouched. -/
theorem c8_removal_helpers (c : Conformer) (sn : Nat) (nm : String) (r : Residue)
    (cid : String × Option String) (p : PDB) (msn : Nat) :
    (∃ x, c.remove_atom_by_serial_number sn = some x ∧
      FirstMatchRemovalSpec (fun a => a.serial_number == sn) c.atoms x.1.atoms x.2 ∧
      x.1.name = c.name ∧ x.1.alternative_location = c.alternative_location ∧
      x.1.modification = c.modification) ∧
    (∃ x, c.remove_atom_by_name nm = some x ∧
      FirstMatchRemovalSpec (fun a => a.name == nm) c.atoms x.1.atoms x.2) ∧
    (∃ x, r.remove_conformer_by_id cid = some x ∧
      FirstMatchRemovalSpec (fun cf => cf.id == cid) r.conformers x.1.conformers x.2) ∧
    (∃ x, p.remove_model_serial_number msn = some x ∧
      FirstMatchRemovalSpec (fun m => m.serial_number == msn) p.models x.1.models x.2) := by
  refine ⟨?_, ?_, ?_, ?_⟩
  · cases hpos : listPosition (fun a => a.serial_number == sn) c.atoms with
    | none =>
      exact ⟨(c, false), by rw [Conformer.remove_atom_by_serial_number, hpos],
        (firstMatchCore _ _).1 hpos, rfl, rfl, rfl⟩
    | some i =>
      obtain ⟨hlt, hspec⟩ := (firstMatchCore _ _).2 i hpos
      refine ⟨({ c with atoms := c.atoms.eraseIdx i }, true), ?_, hspec, rfl, rfl, rfl⟩
      rw [Conformer.remove_atom_by_serial_number, hpos]
      simp [Conformer.remove_atom, hlt]
  · cases hpos : listPosition (fun a => a.name == nm) c.atoms with
    | none =>
      exact ⟨(c, false), by rw [Conformer.remove_atom_by_name, hpos],
        (firstMatchCore _ _).1 hpos⟩
    | some i =>
      obtain ⟨hlt, hspec⟩ := (firstMatchCore _ _).2 i hpos
      refine ⟨({ c with atoms := c.atoms.eraseIdx i }, true), ?_, hspec⟩
      rw [Conformer.remove_atom_by_name, hpos]
      simp [Conformer.remove_atom, hlt]
  · cases hpos : listPosition (fun cf => cf.id == cid) r.conformers with
    | none =>
      exact ⟨(r, false), by rw [Residue.remove_conformer_by_id, hpos],
        (firstMatchCore _ _).1 hpos⟩
    | some i =>
      obtain ⟨hlt, hspec⟩ := (firstMatchCore _ _).2 i hpos
      refine ⟨({ r with conformers := r.conformers.eraseIdx i }, true), ?_, hspec⟩
      rw [Residue.remove_conformer_by_id, hpos]
      simp [Residue.remove_conformer, hlt]
  · cases hpos : listPosition (fun m => m.serial_number == msn) p.models with
    | none =>
      exact ⟨(p, false), by rw [PDB.remove_model_serial_number, hpos],
        (firstMatchCore _ _).1 hpos⟩
    | some i =>
      obtain ⟨hlt, hspec⟩ := (firstMatchCore _ _).2 i hpos
      refine ⟨({ p with models := p.models.eraseIdx i }, true), ?_, hspec⟩
      rw [PDB.remove_model_serial_number, hpos]
      simp [PDB.remove_model, hlt]

/-- Witness for C8: the four helpers, run on concrete aggregates with both
an absent and a present key, all return a value (no panic). -/
theorem c8_removal_helpers_witness :
    (confTwoAtoms.remove_atom_by_serial_number 99).isSome = true ∧
    (confTwoAtoms.remove_atom_by_serial_number 1).isSome = true ∧
    (pdb1.remove_model_serial_number 1).isSome = true := by
  obtain ⟨⟨x, hx, -⟩, -, -, -⟩ :=
    c8_removal_helpers confTwoAtoms 99 "C" resAA ("ALA", none) pdb1 1
  obtain ⟨⟨y, hy, -⟩, -, -, ⟨z, hz, -⟩⟩ :=
    c8_removal_helpers confTwoAtoms 1 "C" resAA ("ALA", none) pdb1 1
  exact ⟨by rw [hx]; rfl, by rw [hy]; rfl, by rw [hz]; rfl⟩

/-- A string with a character outside an alphabet fails the corresponding
all-characters check. -/
theorem all_eq_false_of_bad_char (f : Char → Bool) (s : String)
    (h : ∃ ch ∈ s.data, f ch = false) : s.data.all f = false := by
  obtain ⟨ch, hm, hf⟩ := h
  cases hall : s.data.all f with
  | false => rfl
  | true => rw [List.all_eq_true.mp hall ch hm] at hf; cases hf

/-- C9: for every string containing a character outside the permitted
alphabet, the identifier mutators (`set_name`, `set_alternative_location`,
`set_insertion_code`) return false and leave the entity unchanged, and
`set_modification` returns a descriptive error and leaves the entity
unchanged (its comment field instead being checked against the free-text
alphabet). -/
theorem c9_invalid_mutators (c : Conformer) (r : Residue) (s : String)
    (m : String × String) :
    ((∃ ch ∈ s.data, valid_identifier_char ch = false) →
      c.set_name s = (c, false) ∧
      c.set_alternative_location s = (c, false) ∧
      r.set_insertion_code s = (r, false)) ∧
    ((∃ ch ∈ m.1.data, valid_identifier_char ch = false) ∨
      (∃ ch ∈ m.2.data, valid_text_char ch = false) →
      ∃ msg, c.set_modification m = (c, Except.error msg)) := by
  constructor
  · intro h
    have hv : valid_identifier s = false := all_eq_false_of_bad_char _ _ h
    refine ⟨?_, ?_, ?_⟩ <;>
      simp [Conformer.set_name, Conformer.set_alternative_location,
        Residue.set_insertion_code, prepare_identifier, hv]
  · intro h
    by_cases hvi : valid_identifier m.1 = false
    · refine ⟨"New modification has invalid characters for standard conformer name, standard name " ++ m.1, ?_⟩
      simp [Conformer.set_modification, hvi]
    · have h2 : ∃ ch ∈ m.2.data, valid_text_char ch = false := by
        rcases h with h1 | h2
        · exact absurd (all_eq_false_of_bad_char _ _ h1) hvi
        · exact h2
      have ht : valid_text m.2 = false := all_eq_false_of_bad_char _ _ h2
      refine ⟨"New modification has invalid characters the comment, comment " ++ m.2, ?_⟩
      simp [Conformer.set_modification, hvi, ht]

/-- Witness for C9: the concrete string "x!" holds the character beyond
both alphabets, so each mutator fails on a concrete conformer and residue
and leaves them untouched. -/
theorem c9_invalid_mutators_witness :
    confTwoAtoms.set_name "x!" = (confTwoAtoms, false) ∧
    confTwoAtoms.set_alternative_location "x!" = (confTwoAtoms, false) ∧
    resAA.set_insertion_code "x!" = (resAA, false) ∧
    ∃ msg, confTwoAtoms.set_modification ("x!", "c") = (confTwoAtoms, Except.error msg) := by
  have h := c9_invalid_mutators confTwoAtoms resAA "x!" ("x!", "c")
  have hbad : ∃ ch ∈ "x!".data, valid_identifier_char ch = false :=
    ⟨'!', by decide, by decide⟩
  obtain ⟨ha, hb, hc⟩ := h.1 hbad
  exact ⟨ha, hb, hc, h.2 (Or.inl hbad)⟩

end Pdbtbx
